import Mathlib

/-!
Shallow embedding of the two source files of the repository,
`scripts/prewarm_guilds.py` and `scripts/proxy_filter.py`, together with
theorems settling the specification claims about them.

Network effects are made explicit: each HTTP attempt is represented by the
event the Python runtime delivers to the code (a response, a raised
`HTTPError`, or a transport-level exception), and the loops are modelled as
pure functions of the sequence of such events, returning their observable
results plus a trace of the sleeps they perform.
-/

/-- JSON values as produced by the source's JSON decoder (`json.loads`).
Numbers are modelled as integers; none of the verified claims depends on
numeric structure beyond zero-ness. Object key lookup returns the stored
value for the first matching key (the decoder never produces duplicates). -/
inductive Json where
  | null
  | bool (b : Bool)
  | num (n : Int)
  | str (s : String)
  | arr (elems : List Json)
  | obj (fields : List (String × Json))

/-- Python falsiness of a decoded JSON value: `None`, `False`, `0`, the empty
string, the empty list and the empty dict are falsy, everything else truthy.
Used by the source in `if not guild_json`, `or []`, and `if pt:` checks. -/
def Json.falsy : Json → Bool
  | .null => true
  | .bool b => !b
  | .num n => n == 0
  | .str s => s == ""
  | .arr elems => elems.isEmpty
  | .obj fields => fields.isEmpty

/-- Key lookup on a JSON object, i.e. Python `d.get(key)` (returns `None` when
the key is absent). On a non-object the source would raise; such values never
reach `.get` on the verified paths, and the model returns `none` there. -/
def lookupField (key : String) : List (String × Json) → Option Json
  | [] => none
  | (k, v) :: rest => if k = key then some v else lookupField key rest

/-- `j.get key`: dictionary lookup as used by the source on decoded JSON. -/
def Json.get : Json → String → Option Json
  | .obj fields, key => lookupField key fields
  | _, _ => none

/-- The triple returned by `http_get_json` in `scripts/prewarm_guilds.py`:
`(status_code, parsed_body_or_None, raw_text)`. Status `0` is the sentinel for
a transport failure. -/
structure FetchOutcome where
  statusCode : Nat
  body : Option Json
  rawText : String

/-- What the Python HTTP layer delivers for one GET: `urllib.request.urlopen`
returns a response object for a status below 400, raises `HTTPError`
(carrying the code and a readable payload) for 400 and above, and raises some
other exception when no response arrives at all. `received status payload`
covers the first two cases; the branch taken inside `http_get_json` depends
on whether the status is below 400. -/
inductive NetEvent where
  | received (status : Nat) (payload : String)
  | transportFailure

/-- `http_get_json` from `scripts/prewarm_guilds.py` (lines 39-54), as a
function of the delivered network event. `parse` stands for `json.loads`,
returning `none` exactly when `json.loads` would raise.

Source behaviour embedded here:
- transport failure: caught by the outer bare `except`, giving `(0, None, "")`;
- status below 400 (no exception from `urlopen`): empty payload gives
  `(status, None, "")`; a payload that parses gives `(status, parsed, "")`;
  a payload that fails to parse makes `json.loads` raise, which the outer
  bare `except` catches, giving `(0, None, "")`;
- status 400 and above (`HTTPError` handler): empty payload gives
  `(code, None, "")` (the raw text is the empty payload itself); a payload
  that parses gives `(code, parsed, payload)`; a payload that fails to parse
  is caught by the handler's inner `except`, giving `(code, None, "")`. -/
def http_get_json (parse : String → Option Json) : NetEvent → FetchOutcome
  | .transportFailure => ⟨0, none, ""⟩
  | .received status payload =>
    if status < 400 then
      if payload = "" then ⟨status, none, ""⟩
      else
        match parse payload with
        | some v => ⟨status, some v, ""⟩
        | none => ⟨0, none, ""⟩
    else
      if payload = "" then ⟨status, none, payload⟩
      else
        match parse payload with
        | some v => ⟨status, some v, payload⟩
        | none => ⟨status, none, ""⟩

/-- The sleep performed by `wait_for_200` after a non-200 attempt with the
given status, in seconds (rationals model the source's float arithmetic,
which is exact on these values): `202` sleeps `delay`; `429` sleeps
`max(5.0, delay * 2)`; `500`, `503` and the transport sentinel `0` sleep
`max(10.0, delay * 5)`; any other status sleeps `delay`. -/
def backoffSleep (delay : ℚ) (status : Nat) : ℚ :=
  if status = 202 then delay
  else if status = 429 then max 5 (delay * 2)
  else if status = 500 ∨ status = 503 ∨ status = 0 then max 10 (delay * 5)
  else delay

/-- The retry loop of `wait_for_200` (lines 57-83): `fetch a` is the
`FetchOutcome` of attempt number `a` (the source numbers attempts from 1),
`remaining` counts attempts still allowed. Returns the result together with
the list of sleeps performed, in order. A 200 returns that outcome's body at
once with no further attempt; any other status sleeps `backoffSleep` and
continues; exhaustion returns `none`. -/
def waitGo (fetch : Nat → FetchOutcome) (delay : ℚ) : Nat → Nat → Option Json × List ℚ
  | _, 0 => (none, [])
  | attempt, remaining + 1 =>
    let o := fetch attempt
    if o.statusCode = 200 then (o.body, [])
    else
      let rest := waitGo fetch delay (attempt + 1) remaining
      (rest.1, backoffSleep delay o.statusCode :: rest.2)

/-- `wait_for_200` from `scripts/prewarm_guilds.py`, starting at attempt 1
with `maxAttempts` attempts allowed. -/
def wait_for_200 (fetch : Nat → FetchOutcome) (maxAttempts : Nat) (delay : ℚ) :
    Option Json × List ℚ :=
  waitGo fetch delay 1 maxAttempts

/-- The members list of a decoded guild response: `guild_json.get("members")
or []` — an absent or falsy value yields the empty list. (A truthy non-array
value would fault in the source; it cannot arise from the decoder followed by
this check only for non-list truthy values, which the verified claims never
produce.) -/
def membersOf (j : Json) : List Json :=
  match j.get "members" with
  | some (Json.arr elems) => elems
  | _ => []

/-- `collect_profile_targets` (lines 91-98): the truthy `profileTarget` field
values of the members, in member order; members lacking the field, or with a
falsy value, are skipped. -/
def collect_profile_targets (j : Json) : List Json :=
  (membersOf j).filterMap fun m =>
    match m.get "profileTarget" with
    | some v => if v.falsy then none else some v
    | none => none

/-- `collect_family_names` (lines 101-108): the truthy `familyName` field
values of the members, in member order. -/
def collect_family_names (j : Json) : List Json :=
  (membersOf j).filterMap fun m =>
    match m.get "familyName" with
    | some v => if v.falsy then none else some v
    | none => none

/-- Whether a character is in the regex character class `[A-Za-z0-9_]`. -/
def isWordChar (c : Char) : Bool :=
  ('A' ≤ c && c ≤ 'Z') || ('a' ≤ c && c ≤ 'z') || ('0' ≤ c && c ≤ '9') || c = '_'

/-- `is_valid_search_query` (lines 110-111):
`re.fullmatch(r"[A-Za-z0-9_]{3,16}", query)` — the whole string consists of
word-class characters and its length is between 3 and 16 inclusive. -/
def is_valid_search_query (query : String) : Bool :=
  3 ≤ query.length && query.length ≤ 16 && query.data.all isWordChar

/-- `list(dict.fromkeys(xs))` (lines 149 and 174): keep the first occurrence
of each string, in order; `seen` accumulates the keys already kept. -/
def dedupGo : List String → List String → List String
  | [], _ => []
  | x :: xs, seen => if x ∈ seen then dedupGo xs seen else x :: dedupGo xs (x :: seen)

/-- Order-preserving deduplication, the meaning of `list(dict.fromkeys(xs))`. -/
def dedup (xs : List String) : List String :=
  dedupGo xs []

/-- The observable per-guild outcome of one iteration of the guild loop in
`main` (lines 129-147), as a function of the `wait_for_200` result for that
guild: the extracted profile targets and family names contributed to the
accumulators, and whether the inter-request throttle sleep ran. -/
structure GuildStep where
  targets : List Json
  names : List Json
  throttled : Bool

/-- One iteration of the guild loop: `if not guild_json: continue` skips both
extraction and the throttle sleep whenever the poll result is `None` or a
falsy decoded value; otherwise both collectors run and the loop sleeps the
throttle. -/
def guildStep (r : Option Json) : GuildStep :=
  match r with
  | none => ⟨[], [], false⟩
  | some j =>
    if j.falsy then ⟨[], [], false⟩
    else ⟨collect_profile_targets j, collect_family_names j, true⟩

/-- The profile-warming loop of `main` (lines 155-166): for each identifier,
poll; `if result is None`, append the identifier to the failure list. `poll`
abstracts `wait_for_200` on the URL built from the identifier. Returns the
failure list in order. -/
def warm_profiles (poll : String → Option Json) : List String → List String
  | [] => []
  | t :: ts =>
    match poll t with
    | none => t :: warm_profiles poll ts
    | some _ => warm_profiles poll ts

/-- The search-warming loop of `main` (lines 179-192): identifiers rejected by
`is_valid_search_query` are skipped with `continue` before any request;
otherwise the identifier is polled and appended to the failure list when the
result is `None`. Returns `(identifiers actually requested, failure list)`,
both in order. -/
def warm_searches (poll : String → Option Json) : List String → List String × List String
  | [] => ([], [])
  | f :: fs =>
    if is_valid_search_query f then
      let rest := warm_searches poll fs
      match poll f with
      | none => (f :: rest.1, f :: rest.2)
      | some _ => (f :: rest.1, rest.2)
    else warm_searches poll fs

/-- `a == b` on characters lifted to lists, i.e. "needle is an initial
segment of hay". -/
def strStartsWith : List Char → List Char → Bool
  | [], _ => true
  | _ :: _, [] => false
  | a :: as, b :: bs => a == b && strStartsWith as bs

/-- Substring containment on character lists, the meaning of Python's
`needle in hay` on strings. -/
def strHasSub (needle : List Char) : List Char → Bool
  | [] => needle.isEmpty
  | c :: cs => strStartsWith needle (c :: cs) || strHasSub needle cs

/-- What one probe through a candidate proxy delivers to `test_proxy` in
`scripts/proxy_filter.py`: either a response, with its status and the decoded
text of `resp.read(20000)` before truncation (the read takes at most the first
20000 bytes, modelled below by `List.take 20000` on the characters), or an
exception of any kind raised during the probe. -/
inductive ProbeResult where
  | ok (status : Nat) (rawBody : String)
  | exn

/-- `test_proxy` from `scripts/proxy_filter.py` (lines 16-29): any exception
yields `false`; otherwise the verdict is `true` iff the status is exactly 200,
the truncated body, lower-cased, contains none of `"imperva"`, `"incapsula"`,
`"<iframe"`, and the truncated body is longer than 500 characters. -/
def test_proxy (probe : ProbeResult) : Bool :=
  match probe with
  | .exn => false
  | .ok status rawBody =>
    let body := rawBody.data.take 20000
    if status ≠ 200 then false
    else
      let lowered := body.map Char.toLower
      if strHasSub "imperva".data lowered || strHasSub "incapsula".data lowered ||
          strHasSub "<iframe".data lowered then false
      else decide (500 < body.length)

/-- The candidate loop of `main` in `scripts/proxy_filter.py` (lines 58-66):
walk the candidates in source order with a `tested` counter, breaking as soon
as `tested` reaches `limit`; each candidate still probed increments `tested`,
is classified by `verdict` (abstracting `test_proxy` at the configured target
and timeout), and is appended to the survivors when the verdict is `true`.
Returns `(final tested count, candidates probed in order, survivors in
order)`. -/
def proxyLoop (verdict : String → Bool) (limit : Nat) :
    List String → Nat → Nat × List String × List String
  | [], tested => (tested, [], [])
  | p :: ps, tested =>
    if limit ≤ tested then (tested, [], [])
    else
      let rest := proxyLoop verdict limit ps (tested + 1)
      (rest.1, p :: rest.2.1, if verdict p then p :: rest.2.2 else rest.2.2)

/-- The observable outcome of a run of `main` in `scripts/proxy_filter.py`:
the process exit code and the survivor list persisted to the output file, if
any. -/
structure RunResult where
  exitCode : Nat
  persisted : Option (List String)

/-- `main` of `scripts/proxy_filter.py` (lines 50-74), as a function of the
fetched candidate list: an empty list exits with code 1 before any probe; an
empty survivor list after the loop exits with code 2 and persists nothing;
otherwise the survivors are persisted and the process ends with code 0. -/
def proxy_main (verdict : String → Bool) (limit : Nat) (proxies : List String) : RunResult :=
  if proxies.isEmpty then ⟨1, none⟩
  else
    let working := (proxyLoop verdict limit proxies 0).2.2
    if working.isEmpty then ⟨2, none⟩
    else ⟨0, some working⟩

/-- Helper: the general invariant of the candidate loop, for any starting
value of the `tested` counter: the candidates probed are the first
`limit - tested` of the remaining list, and the final counter adds the number
actually probed. -/
theorem proxyLoop_spec (verdict : String → Bool) (limit : Nat) :
    ∀ (ps : List String) (t : Nat),
      (proxyLoop verdict limit ps t).2.1 = ps.take (limit - t) ∧
      (proxyLoop verdict limit ps t).1 = t + min (limit - t) ps.length := by
  intro ps
  induction ps with
  | nil => intro t; simp [proxyLoop]
  | cons p ps ih =>
    intro t
    by_cases h : limit ≤ t
    · simp [proxyLoop, h, Nat.sub_eq_zero_of_le h]
    · have h2 := ih (t + 1)
      have hsub : limit - t = (limit - (t + 1)) + 1 := by omega
      refine ⟨?_, ?_⟩
      · simp only [proxyLoop, if_neg h, h2.1, hsub, List.take_succ_cons]
      · simp only [proxyLoop, if_neg h, h2.2, List.length_cons]
        omega

/-- Claim C5: for every candidate list, configured limit and verdict
function, the pipeline probes exactly the first `min limit (number of
candidates)` candidates, in source order; since this holds for every verdict
function, the bound constrains total probe attempts, not successes. -/
theorem C5_probe_budget (verdict : String → Bool) (limit : Nat) (proxies : List String) :
    (proxyLoop verdict limit proxies 0).2.1 = proxies.take limit ∧
    (proxyLoop verdict limit proxies 0).2.1.length = min limit proxies.length ∧
    (proxyLoop verdict limit proxies 0).1 = min limit proxies.length := by
  have h := proxyLoop_spec verdict limit proxies 0
  rw [Nat.sub_zero] at h
  exact ⟨h.1, by rw [h.1, List.length_take], by rw [h.2, Nat.zero_add]⟩

/-- Claim C9: the pipeline's exit status is 1 when the fetched candidate list
is empty, 2 when probing ends with no survivors (persisting nothing), and 0
with the survivor list persisted when survivors exist; the two failure codes
are non-zero and distinct from each other. -/
theorem C9_exit_codes (verdict : String → Bool) (limit : Nat) (proxies : List String) :
    (proxies = [] → proxy_main verdict limit proxies = ⟨1, none⟩) ∧
    (proxies ≠ [] → (proxyLoop verdict limit proxies 0).2.2 = [] →
      proxy_main verdict limit proxies = ⟨2, none⟩) ∧
    (proxies ≠ [] → (proxyLoop verdict limit proxies 0).2.2 ≠ [] →
      proxy_main verdict limit proxies =
        ⟨0, some ((proxyLoop verdict limit proxies 0).2.2)⟩) ∧
    (1 : Nat) ≠ 0 ∧ (2 : Nat) ≠ 0 ∧ (1 : Nat) ≠ 2 := by
  refine ⟨?_, ?_, ?_, by decide, by decide, by decide⟩
  · intro h; subst h; rfl
  · intro h hw
    simp [proxy_main, List.isEmpty_iff, h, hw]
  · intro h hw
    simp [proxy_main, List.isEmpty_iff, h, hw]

/-- Claim C9, witness: the three exit-status cases at concrete inputs — an
empty candidate list exits 1; one candidate failing validation exits 2 with
nothing persisted; one candidate passing validation exits 0 and persists it. -/
theorem C9_witness :
    proxy_main (fun _ => false) 1 [] = ⟨1, none⟩ ∧
    proxy_main (fun _ => false) 1 ["p"] = ⟨2, none⟩ ∧
    proxy_main (fun _ => true) 1 ["p"] = ⟨0, some ["p"]⟩ := by
  refine ⟨(C9_exit_codes (fun _ => false) 1 []).1 rfl, ?_, ?_⟩
  · exact (C9_exit_codes (fun _ => false) 1 ["p"]).2.1 (by simp) rfl
  · exact (C9_exit_codes (fun _ => true) 1 ["p"]).2.2.1 (by simp) (by simp [proxyLoop])

/-- Claim C4: the validator's verdict is `true` exactly when the probe
returned a response (no exception), its status is exactly 200, the first
20000 characters of the body contain, after lower-casing, none of the three
block-page markers, and that truncated body is longer than 500 characters;
an exception always yields `false`. -/
theorem C4_proxy_validator (probe : ProbeResult) :
    (test_proxy probe = true ↔
      ∃ rawBody, probe = ProbeResult.ok 200 rawBody ∧
        strHasSub "imperva".data ((rawBody.data.take 20000).map Char.toLower) = false ∧
        strHasSub "incapsula".data ((rawBody.data.take 20000).map Char.toLower) = false ∧
        strHasSub "<iframe".data ((rawBody.data.take 20000).map Char.toLower) = false ∧
        500 < (rawBody.data.take 20000).length) ∧
    test_proxy ProbeResult.exn = false := by
  refine ⟨?_, rfl⟩
  cases probe with
  | exn => simp [test_proxy]
  | ok status rawBody =>
    by_cases hs : status = 200
    · subst hs
      simp [test_proxy]
      tauto
    · simp [test_proxy, hs, Ne.symm hs]

/-- Claim C10: a present but falsy poll body makes the guild iteration behave
exactly like a poll failure — no identifiers are extracted and the
inter-request throttle sleep is skipped. -/
theorem C10_falsy_guild_body (j : Json) (hj : Json.falsy j = true) :
    guildStep (some j) = guildStep none ∧
    (guildStep (some j)).targets = [] ∧
    (guildStep (some j)).names = [] ∧
    (guildStep (some j)).throttled = false := by
  simp [guildStep, hj]

/-- Claim C10, witness: the empty JSON object (a 200 response whose payload
decodes to an empty dict) is falsy and its guild iteration coincides with the
poll-failure iteration, with the throttle sleep skipped. -/
theorem C10_witness :
    Json.falsy (Json.obj []) = true ∧
    guildStep (some (Json.obj [])) = guildStep none ∧
    (guildStep (some (Json.obj []))).throttled = false :=
  ⟨rfl, (C10_falsy_guild_body (Json.obj []) rfl).1,
    (C10_falsy_guild_body (Json.obj []) rfl).2.2.2⟩

/-- Claim C7: a string is accepted by the query validator iff it consists
solely of characters in the class A-Z, a-z, 0-9, underscore and its length is
between 3 and 16 inclusive; the six example verdicts of the spec hold. -/
theorem C7_query_validator (q : String) :
    (is_valid_search_query q = true ↔
      3 ≤ q.length ∧ q.length ≤ 16 ∧
      ∀ c ∈ q.data,
        ('A' ≤ c ∧ c ≤ 'Z') ∨ ('a' ≤ c ∧ c ≤ 'z') ∨ ('0' ≤ c ∧ c ≤ '9') ∨ c = '_') ∧
    is_valid_search_query "abc" = true ∧
    is_valid_search_query "aaaaaaaaaaaaaaaa" = true ∧
    is_valid_search_query "John_123" = true ∧
    is_valid_search_query "ab" = false ∧
    is_valid_search_query "aaaaaaaaaaaaaaaaa" = false ∧
    is_valid_search_query "john doe" = false := by
  refine ⟨?_, by decide, by decide, by decide, by decide, by decide, by decide⟩
  simp [is_valid_search_query, isWordChar, List.all_eq_true, and_assoc, or_assoc]

/-- A concrete stand-in for `json.loads`, agreeing with it on the inputs used
below: the text `null` decodes to the JSON null value; the text `bad` makes
the decoder raise. -/
def parseEx : String → Option Json :=
  fun s => if s = "null" then some Json.null else none

/-- Claim C2, counterexample: on a 200 response whose non-empty payload fails
to parse, the fetcher returns the transport-failure sentinel `(0, None, "")`
— the response's status code is NOT preserved, contradicting the claim; and
on a 200 response whose payload parses, `rawText` is the empty string, not
the raw payload. -/
theorem C2_counterexample :
    http_get_json parseEx (NetEvent.received 200 "bad") = ⟨0, none, ""⟩ ∧
    (http_get_json parseEx (NetEvent.received 200 "bad")).statusCode ≠ 200 ∧
    (http_get_json parseEx (NetEvent.received 200 "null")).rawText ≠ "null" :=
  ⟨rfl, by decide, by decide⟩

/-- Claim C2 as amended: the fetcher's outcome per received response. For a
response delivered without exception (status below 400): the status code and
parsed body are as claimed when the payload is empty or parses, but `rawText`
is always the empty string on this path, and a non-empty payload that fails
to parse collapses the whole outcome to the transport-failure sentinel
`(0, None, "")`, indistinguishable from no response at all. For an error
response (status 400 and above): the status code is always preserved; the
body is the parsed value when the payload is non-empty and parses, otherwise
absent; `rawText` is the raw payload except when a non-empty payload fails to
parse, in which case it is the empty string. -/
theorem C2_fetch_outcome (parse : String → Option Json) (status : Nat) (payload : String) :
    (status < 400 → (payload = "" ∨ (parse payload).isSome = true) →
      http_get_json parse (.received status payload) =
        ⟨status, if payload = "" then none else parse payload, ""⟩) ∧
    (status < 400 → payload ≠ "" → parse payload = none →
      http_get_json parse (.received status payload) = ⟨0, none, ""⟩ ∧
      http_get_json parse (.received status payload) =
        http_get_json parse NetEvent.transportFailure) ∧
    (400 ≤ status →
      (http_get_json parse (.received status payload)).statusCode = status ∧
      (http_get_json parse (.received status payload)).body =
        (if payload = "" then none else parse payload) ∧
      (payload = "" ∨ (parse payload).isSome = true →
        (http_get_json parse (.received status payload)).rawText = payload) ∧
      (payload ≠ "" → parse payload = none →
        (http_get_json parse (.received status payload)).rawText = "")) := by
  refine ⟨?_, ?_, ?_⟩
  · intro hlt hp
    by_cases he : payload = ""
    · simp [http_get_json, hlt, he]
    · rcases hp with hp | hp
      · exact absurd hp he
      · rcases Option.isSome_iff_exists.mp hp with ⟨v, hv⟩
        simp [http_get_json, hlt, he, hv]
  · intro hlt he hn
    simp [http_get_json, hlt, he, hn]
  · intro hge
    have hlt : ¬status < 400 := by omega
    by_cases he : payload = ""
    · simp [http_get_json, hlt, he]
    · cases hv : parse payload with
      | none => simp [http_get_json, hlt, he, hv]
      | some v => simp [http_get_json, hlt, he, hv]

/-- Claim C2, witness: the amended behaviour at concrete inputs — a 404
response with a parsing payload keeps its code, body and raw text; a 200
response with a parsing payload keeps code and body but has empty raw text. -/
theorem C2_witness :
    http_get_json parseEx (NetEvent.received 200 "null") = ⟨200, some Json.null, ""⟩ ∧
    (http_get_json parseEx (NetEvent.received 404 "null")).statusCode = 404 ∧
    (http_get_json parseEx (NetEvent.received 404 "null")).rawText = "null" := by
  refine ⟨?_, ?_, ?_⟩
  · have h := (C2_fetch_outcome parseEx 200 "null").1 (by decide) (Or.inr (by decide))
    rw [h]; rfl
  · exact ((C2_fetch_outcome parseEx 404 "null").2.2 (by decide)).1
  · exact ((C2_fetch_outcome parseEx 404 "null").2.2 (by decide)).2.2.1 (Or.inr (by decide))

/-- Helper: membership in the deduplicated tail — an element is kept iff it
occurs in the remaining input and was not already seen. -/
theorem mem_dedupGo (a : String) :
    ∀ (xs seen : List String), a ∈ dedupGo xs seen ↔ a ∈ xs ∧ a ∉ seen := by
  intro xs
  induction xs with
  | nil => intro seen; simp [dedupGo]
  | cons x xs ih =>
    intro seen
    by_cases hx : x ∈ seen
    · rw [dedupGo, if_pos hx, ih]
      constructor
      · rintro ⟨h1, h2⟩
        exact ⟨List.mem_cons_of_mem _ h1, h2⟩
      · rintro ⟨h1, h2⟩
        rcases List.mem_cons.mp h1 with rfl | h1
        · exact absurd hx h2
        · exact ⟨h1, h2⟩
    · rw [dedupGo, if_neg hx]
      constructor
      · intro h
        rcases List.mem_cons.mp h with rfl | h
        · exact ⟨List.mem_cons_self _ _, hx⟩
        · obtain ⟨h1, h2⟩ := (ih (x :: seen)).mp h
          exact ⟨List.mem_cons_of_mem _ h1, fun hs => h2 (List.mem_cons_of_mem _ hs)⟩
      · rintro ⟨h1, h2⟩
        by_cases hax : a = x
        · subst hax; exact List.mem_cons_self _ _
        · rcases List.mem_cons.mp h1 with h1 | h1
          · exact absurd h1 hax
          · refine List.mem_cons_of_mem _ ((ih (x :: seen)).mpr ⟨h1, fun hs => ?_⟩)
            rcases List.mem_cons.mp hs with h | h
            · exact hax h
            · exact h2 h

/-- Helper: the deduplicated output never repeats an element. -/
theorem nodup_dedupGo : ∀ (xs seen : List String), (dedupGo xs seen).Nodup := by
  intro xs
  induction xs with
  | nil => intro seen; simp [dedupGo]
  | cons x xs ih =>
    intro seen
    by_cases hx : x ∈ seen
    · rw [dedupGo, if_pos hx]; exact ih seen
    · rw [dedupGo, if_neg hx]
      refine List.nodup_cons.mpr ⟨fun hmem => ?_, ih (x :: seen)⟩
      exact ((mem_dedupGo x xs (x :: seen)).mp hmem).2 (List.mem_cons_self x seen)

/-- Helper: the deduplicated output is a sub-sequence of the input. -/
theorem sublist_dedupGo : ∀ (xs seen : List String), (dedupGo xs seen).Sublist xs := by
  intro xs
  induction xs with
  | nil => intro seen; simp [dedupGo]
  | cons x xs ih =>
    intro seen
    by_cases hx : x ∈ seen
    · rw [dedupGo, if_pos hx]; exact (ih seen).cons x
    · rw [dedupGo, if_neg hx]; exact (ih (x :: seen)).cons₂ x

/-- Helper: the deduplicated output lists elements in order of their first
occurrence in the input: positions of first occurrences are strictly
increasing along the output. -/
theorem pairwise_firstIdx_dedupGo :
    ∀ (xs seen : List String),
      List.Pairwise (fun a b => xs.indexOf a < xs.indexOf b) (dedupGo xs seen) := by
  intro xs
  induction xs with
  | nil => intro seen; simp [dedupGo]
  | cons x xs ih =>
    intro seen
    by_cases hx : x ∈ seen
    · rw [dedupGo, if_pos hx]
      refine List.Pairwise.imp_of_mem ?_ (ih seen)
      intro a b ha hb hlt
      have hax : x ≠ a := fun h => ((mem_dedupGo a xs seen).mp ha).2 (h ▸ hx)
      have hbx : x ≠ b := fun h => ((mem_dedupGo b xs seen).mp hb).2 (h ▸ hx)
      rw [List.indexOf_cons_ne _ hax, List.indexOf_cons_ne _ hbx]
      exact Nat.succ_lt_succ hlt
    · rw [dedupGo, if_neg hx]
      refine List.pairwise_cons.mpr ⟨fun b hb => ?_, ?_⟩
      · have hbmem := (mem_dedupGo b xs (x :: seen)).mp hb
        have hbx : x ≠ b := fun h => hbmem.2 (h ▸ List.mem_cons_self x seen)
        rw [List.indexOf_cons_self, List.indexOf_cons_ne _ hbx]
        exact Nat.succ_pos _
      · refine List.Pairwise.imp_of_mem ?_ (ih (x :: seen))
        intro a b ha hb hlt
        have hax : x ≠ a :=
          fun h => ((mem_dedupGo a xs (x :: seen)).mp ha).2 (h ▸ List.mem_cons_self x seen)
        have hbx : x ≠ b :=
          fun h => ((mem_dedupGo b xs (x :: seen)).mp hb).2 (h ▸ List.mem_cons_self x seen)
        rw [List.indexOf_cons_ne _ hax, List.indexOf_cons_ne _ hbx]
        exact Nat.succ_lt_succ hlt

/-- Claim C6: for any input sequence, the deduplication pipeline returns a
sub-sequence of the input that contains exactly the distinct elements of the
input, each exactly once, ordered by first appearance in the input. -/
theorem C6_dedup (xs : List String) :
    (dedup xs).Sublist xs ∧
    (dedup xs).Nodup ∧
    (∀ a, a ∈ dedup xs ↔ a ∈ xs) ∧
    List.Pairwise (fun a b => xs.indexOf a < xs.indexOf b) (dedup xs) := by
  refine ⟨sublist_dedupGo xs [], nodup_dedupGo xs [], fun a => ?_,
    pairwise_firstIdx_dedupGo xs []⟩
  rw [dedup, mem_dedupGo]
  simp

/-- Helper: every identifier in the profile-warming failure list comes from
the identifier sequence the loop was fed. -/
theorem mem_of_mem_warm_profiles (poll : String → Option Json) :
    ∀ (ts : List String) (a : String), a ∈ warm_profiles poll ts → a ∈ ts := by
  intro ts
  induction ts with
  | nil => intro a h; simp [warm_profiles] at h
  | cons t ts ih =>
    intro a h
    cases hp : poll t with
    | none =>
      rw [warm_profiles, hp] at h
      rcases List.mem_cons.mp h with rfl | h
      · exact List.mem_cons_self _ _
      · exact List.mem_cons_of_mem _ (ih a h)
    | some v =>
      rw [warm_profiles, hp] at h
      exact List.mem_cons_of_mem _ (ih a h)

/-- Helper: every identifier the search-warming loop actually requests comes
from the fed sequence and passes the query validator. -/
theorem mem_of_mem_warm_searches_requested (poll : String → Option Json) :
    ∀ (fs : List String) (a : String),
      a ∈ (warm_searches poll fs).1 → a ∈ fs ∧ is_valid_search_query a = true := by
  intro fs
  induction fs with
  | nil => intro a h; simp [warm_searches] at h
  | cons f fs ih =>
    intro a h
    by_cases hv : is_valid_search_query f
    · have hmem : a ∈ f :: (warm_searches poll fs).1 := by
        rw [warm_searches, if_pos hv] at h
        cases hp : poll f <;> rw [hp] at h <;> exact h
      rcases List.mem_cons.mp hmem with rfl | hmem
      · exact ⟨List.mem_cons_self _ _, hv⟩
      · obtain ⟨h1, h2⟩ := ih a hmem
        exact ⟨List.mem_cons_of_mem _ h1, h2⟩
    · rw [warm_searches, if_neg hv] at h
      obtain ⟨h1, h2⟩ := ih a h
      exact ⟨List.mem_cons_of_mem _ h1, h2⟩

/-- Helper: every identifier in the search-warming failure list was actually
requested. -/
theorem warm_searches_failed_sub_requested (poll : String → Option Json) :
    ∀ (fs : List String) (a : String),
      a ∈ (warm_searches poll fs).2 → a ∈ (warm_searches poll fs).1 := by
  intro fs
  induction fs with
  | nil => intro a h; simp [warm_searches] at h
  | cons f fs ih =>
    intro a h
    by_cases hv : is_valid_search_query f
    · cases hp : poll f with
      | none =>
        rw [warm_searches, if_pos hv, hp] at h ⊢
        rcases List.mem_cons.mp h with rfl | h
        · exact List.mem_cons_self _ _
        · exact List.mem_cons_of_mem _ (ih a h)
      | some v =>
        rw [warm_searches, if_pos hv, hp] at h ⊢
        exact List.mem_cons_of_mem _ (ih a h)
    · rw [warm_searches, if_neg hv] at h ⊢
      exact ih a h

/-- Claim C8: feeding either warming loop the deduplicated identifier
sequence, every identifier in its failure list occurs exactly once in that
sequence (which never repeats an entry), and an identifier rejected by the
query validator is never requested by the search loop and never enters its
failure list. -/
theorem C8_failure_list_invariant (poll : String → Option Json) (raw : List String) :
    (dedup raw).Nodup ∧
    (∀ a, a ∈ warm_profiles poll (dedup raw) → (dedup raw).count a = 1) ∧
    (∀ a, a ∈ (warm_searches poll (dedup raw)).2 → (dedup raw).count a = 1) ∧
    (∀ a, is_valid_search_query a = false →
      a ∉ (warm_searches poll (dedup raw)).1 ∧ a ∉ (warm_searches poll (dedup raw)).2) := by
  have hnd : (dedup raw).Nodup := nodup_dedupGo raw []
  refine ⟨hnd, ?_, ?_, ?_⟩
  · intro a ha
    exact List.count_eq_one_of_mem hnd (mem_of_mem_warm_profiles poll (dedup raw) a ha)
  · intro a ha
    have := warm_searches_failed_sub_requested poll (dedup raw) a ha
    exact List.count_eq_one_of_mem hnd
      (mem_of_mem_warm_searches_requested poll (dedup raw) a this).1
  · intro a hv
    have hreq : a ∉ (warm_searches poll (dedup raw)).1 := by
      intro h
      rw [(mem_of_mem_warm_searches_requested poll (dedup raw) a h).2] at hv
      cases hv
    exact ⟨hreq, fun h => hreq (warm_searches_failed_sub_requested poll (dedup raw) a h)⟩

/-- Claim C8, witness: with a poll that always fails, the duplicated input
list is collapsed so its element is counted once in the identifier set and
once in the failure list, and an invalid identifier is neither requested nor
recorded as failed. -/
theorem C8_witness :
    (dedup ["abc", "abc"]).count "abc" = 1 ∧
    "ab" ∉ (warm_searches (fun _ => none) (dedup ["abc", "ab"])).1 ∧
    "ab" ∉ (warm_searches (fun _ => none) (dedup ["abc", "ab"])).2 := by
  refine ⟨?_, ?_, ?_⟩
  · exact (C8_failure_list_invariant (fun _ => none) ["abc", "abc"]).2.1 "abc" (by decide)
  · exact ((C8_failure_list_invariant (fun _ => none) ["abc", "ab"]).2.2.2 "ab" (by decide)).1
  · exact ((C8_failure_list_invariant (fun _ => none) ["abc", "ab"]).2.2.2 "ab" (by decide)).2

/-- Helper: when no attempt in the window returns 200, the loop performs all
remaining attempts, sleeps the classified backoff after each, and returns
absent. -/
theorem waitGo_exhaust (fetch : Nat → FetchOutcome) (delay : ℚ) :
    ∀ (r a : Nat), (∀ j, a ≤ j → j < a + r → (fetch j).statusCode ≠ 200) →
      waitGo fetch delay a r =
        (none, (List.range r).map fun k => backoffSleep delay (fetch (a + k)).statusCode) := by
  intro r
  induction r with
  | zero => intro a h; simp [waitGo]
  | succ r ih =>
    intro a h
    have ha : (fetch a).statusCode ≠ 200 := h a le_rfl (by omega)
    have hrec := ih (a + 1) (fun j hj1 hj2 => h j (by omega) (by omega))
    simp only [waitGo, if_neg ha, hrec]
    refine Prod.ext rfl ?_
    simp only [List.range_succ_eq_map, List.map_cons, List.map_map, Nat.add_zero]
    refine congrArg₂ List.cons rfl (List.map_congr_left fun k _ => ?_)
    simp only [Function.comp_apply]
    have hk : a + 1 + k = a + (k + 1) := by omega
    rw [hk]

/-- Helper: at the first attempt in the window whose status is 200 the loop
stops, returning that outcome's body, having slept once per earlier attempt. -/
theorem waitGo_first200 (fetch : Nat → FetchOutcome) (delay : ℚ) :
    ∀ (r a i : Nat), a ≤ i → i < a + r → (fetch i).statusCode = 200 →
      (∀ j, a ≤ j → j < i → (fetch j).statusCode ≠ 200) →
      waitGo fetch delay a r =
        ((fetch i).body,
          (List.range (i - a)).map fun k => backoffSleep delay (fetch (a + k)).statusCode) := by
  intro r
  induction r with
  | zero => intro a i h1 h2 _ _; omega
  | succ r ih =>
    intro a i h1 h2 h200 hfirst
    by_cases hai : i = a
    · subst hai
      simp [waitGo, h200, Nat.sub_self]
    · have ha : (fetch a).statusCode ≠ 200 := hfirst a le_rfl (by omega)
      have hrec := ih (a + 1) i (by omega) (by omega) h200
        (fun j hj1 hj2 => hfirst j (by omega) hj2)
      simp only [waitGo, if_neg ha, hrec]
      refine Prod.ext rfl ?_
      have hia : i - a = (i - (a + 1)) + 1 := by omega
      rw [hia]
      simp only [List.range_succ_eq_map, List.map_cons, List.map_map, Nat.add_zero]
      refine congrArg₂ List.cons rfl (List.map_congr_left fun k _ => ?_)
      simp only [Function.comp_apply]
      have hk : a + 1 + k = a + (k + 1) := by omega
      rw [hk]

/-- Claim C1: the backoff polling engine, per attempt: the first status-200
attempt terminates the loop at once with that body; if none of the
`maxAttempts` attempts returns 200 the engine performs them all and returns
absent; and the sleep after a non-200 attempt is the base delay for 202, the
larger of 5 seconds and twice the base delay for 429, the larger of 10
seconds and five times the base delay for 500, 503 and the transport
sentinel 0, and the base delay for any other status. -/
theorem C1_backoff_engine (fetch : Nat → FetchOutcome) (maxAttempts : Nat) (delay : ℚ) :
    (∀ i, 1 ≤ i → i ≤ maxAttempts → (fetch i).statusCode = 200 →
      (∀ j, 1 ≤ j → j < i → (fetch j).statusCode ≠ 200) →
      wait_for_200 fetch maxAttempts delay =
        ((fetch i).body,
          (List.range (i - 1)).map fun k => backoffSleep delay (fetch (1 + k)).statusCode)) ∧
    ((∀ i, 1 ≤ i → i ≤ maxAttempts → (fetch i).statusCode ≠ 200) →
      wait_for_200 fetch maxAttempts delay =
        (none,
          (List.range maxAttempts).map fun k => backoffSleep delay (fetch (1 + k)).statusCode)) ∧
    backoffSleep delay 202 = delay ∧
    backoffSleep delay 429 = max 5 (delay * 2) ∧
    backoffSleep delay 500 = max 10 (delay * 5) ∧
    backoffSleep delay 503 = max 10 (delay * 5) ∧
    backoffSleep delay 0 = max 10 (delay * 5) ∧
    (∀ s, s ≠ 200 → s ≠ 202 → s ≠ 429 → s ≠ 500 → s ≠ 503 → s ≠ 0 →
      backoffSleep delay s = delay) := by
  refine ⟨?_, ?_, rfl, rfl, ?_, ?_, ?_, ?_⟩
  · intro i h1 h2 h200 hfirst
    exact waitGo_first200 fetch delay maxAttempts 1 i h1 (by omega) h200
      (fun j hj1 hj2 => hfirst j hj1 hj2)
  · intro h
    exact waitGo_exhaust fetch delay maxAttempts 1 (fun j hj1 hj2 => h j hj1 (by omega))
  · simp [backoffSleep]
  · simp [backoffSleep]
  · simp [backoffSleep]
  · intro s hs200 hs202 hs429 hs500 hs503 hs0
    simp [backoffSleep, hs202, hs429, hs500, hs503, hs0]

/-- A response sequence whose every attempt is rate-limited: status 429 with
no body. -/
def fetch429c : Nat → FetchOutcome := fun _ => ⟨429, none, ""⟩

/-- Claim C1, witness: with base delay 1 and two allowed attempts against the
always-429 sequence, the engine returns absent after sleeping
`max(5.0, 1*2) = 5` seconds twice. -/
theorem C1_witness : wait_for_200 fetch429c 2 1 = (none, [5, 5]) := by
  have h := (C1_backoff_engine fetch429c 2 1).2.1 (fun i _ _ => by simp [fetch429c])
  rw [h]
  simp [fetch429c, backoffSleep, List.range_succ]
  norm_num

/-- A response sequence whose every attempt is a 200 with an empty payload:
`http_get_json` yields `(200, None, "")` for such a response. -/
def fetch200empty : Nat → FetchOutcome := fun _ => ⟨200, none, ""⟩

/-- Claim C3, counterexample: a sequence whose very first attempt returns
status 200 — but with an empty payload, hence an absent parsed body — makes
the engine return absent immediately, although a 200 occurred well before
attempt exhaustion; the claimed "present structured value" fails. -/
theorem C3_counterexample :
    (fetch200empty 1).statusCode = 200 ∧ (1 : Nat) ≤ 3 ∧
    (wait_for_200 fetch200empty 3 1).1 = none :=
  ⟨rfl, by decide, rfl⟩

/-- Claim C3 as amended: at the first attempt whose status is 200 the engine
stops immediately (one sleep per earlier attempt, none after) and returns
that attempt's body — present exactly when the 200 carried a non-empty
parseable payload, absent otherwise; conversely a present result can only
come from some 200 attempt, whose body it is; and with no 200 among the
`maxAttempts` attempts the result is absent. -/
theorem C3_poll_result (fetch : Nat → FetchOutcome) (maxAttempts : Nat) (delay : ℚ) :
    (∀ i, 1 ≤ i → i ≤ maxAttempts → (fetch i).statusCode = 200 →
      (∀ j, 1 ≤ j → j < i → (fetch j).statusCode ≠ 200) →
      (wait_for_200 fetch maxAttempts delay).1 = (fetch i).body ∧
      (wait_for_200 fetch maxAttempts delay).2.length = i - 1) ∧
    ((wait_for_200 fetch maxAttempts delay).1 ≠ none →
      ∃ i, 1 ≤ i ∧ i ≤ maxAttempts ∧ (fetch i).statusCode = 200 ∧
        (wait_for_200 fetch maxAttempts delay).1 = (fetch i).body) ∧
    ((∀ i, 1 ≤ i → i ≤ maxAttempts → (fetch i).statusCode ≠ 200) →
      (wait_for_200 fetch maxAttempts delay).1 = none) := by
  have hexh : (∀ i, 1 ≤ i → i ≤ maxAttempts → (fetch i).statusCode ≠ 200) →
      (wait_for_200 fetch maxAttempts delay).1 = none := by
    intro h
    rw [wait_for_200, waitGo_exhaust fetch delay maxAttempts 1
      (fun j hj1 hj2 => h j hj1 (by omega))]
  have hfirst : ∀ i, 1 ≤ i → i ≤ maxAttempts → (fetch i).statusCode = 200 →
      (∀ j, 1 ≤ j → j < i → (fetch j).statusCode ≠ 200) →
      (wait_for_200 fetch maxAttempts delay).1 = (fetch i).body ∧
      (wait_for_200 fetch maxAttempts delay).2.length = i - 1 := by
    intro i h1 h2 h200 hf
    rw [wait_for_200, waitGo_first200 fetch delay maxAttempts 1 i h1 (by omega) h200 hf]
    simp
  refine ⟨hfirst, ?_, hexh⟩
  intro hne
  classical
  by_cases hex : ∃ i, (1 ≤ i ∧ i ≤ maxAttempts) ∧ (fetch i).statusCode = 200
  · obtain ⟨⟨hn1, hn2⟩, hn200⟩ := Nat.find_spec hex
    have hmin : ∀ j, 1 ≤ j → j < Nat.find hex → (fetch j).statusCode ≠ 200 := by
      intro j hj1 hj2 hj200
      exact Nat.find_min hex hj2 ⟨⟨hj1, by omega⟩, hj200⟩
    obtain ⟨hb, _⟩ := hfirst (Nat.find hex) hn1 hn2 hn200 hmin
    exact ⟨Nat.find hex, hn1, hn2, hn200, hb⟩
  · push_neg at hex
    exact absurd (hexh fun i hi1 hi2 => hex i ⟨hi1, hi2⟩) hne

/-- A response sequence whose every attempt is a 200 carrying a parsed body. -/
def fetch200ok : Nat → FetchOutcome := fun _ => ⟨200, some Json.null, ""⟩

/-- Claim C3, witness: a first-attempt 200 with a parsed body makes the
engine return that body at once, with no sleep performed. -/
theorem C3_witness :
    (wait_for_200 fetch200ok 3 1).1 = some Json.null ∧
    (wait_for_200 fetch200ok 3 1).2.length = 0 := by
  have h := (C3_poll_result fetch200ok 3 1).1 1 (by decide) (by decide) rfl
    (fun j hj1 hj2 => by omega)
  exact ⟨h.1.trans rfl, h.2⟩
